import Mathlib

/-!
# Shallow embedding of the FinGLM financial QA core

This file embeds, in Lean 4, the core components of the repository:

* `finglm_v1/utils/dialogue_manager.py` — `DialogueManager.get_context` and
  `DialogueManager.update_history` (dialogue history with windowed context);
* `finglm_v1/utils/vector_store.py` — `TableVectorStore.search` over a FAISS
  `IndexFlatL2` (squared-Euclidean brute-force ranking, score transform,
  threshold filtering);
* `finglm_v1/agents/nlu.py` — the relevant-table resolution loop of
  `ParserAgent.parse`;
* `finglm_v1/core/system.py` — `FinanceQASystem.process_question`, the bounded
  refinement loop with completion-sentinel check.

External collaborators (LLM, SQL execution, the embedding model) are modelled
as oracle functions; machine floats are modelled as rationals; Python strings
are Lean `String`s (with character-list helpers for substring operations).
-/

namespace FinGLM

/-! ## Python string helpers

`process_question` uses `"<|FINISH|>" in answer` (substring containment) and
`answer.split("<|FINISH|>")[0]` (everything before the first occurrence of the
separator; the whole string when the separator is absent).  `get_context` and
`update_history` use `question_id.split("-")[0]` (the part before the first
dash). -/

/-- Python `s.split(sep)[0]` for a non-empty separator `sep`: the longest
prefix of `s` that stops at the first occurrence of `sep`; `s` itself when
`sep` does not occur. -/
def pySplitHead (sep : List Char) : List Char → List Char
  | [] => []
  | c :: rest => if sep.isPrefixOf (c :: rest) then [] else c :: pySplitHead sep rest

/-- Python `sep in s` (substring containment) on character lists. -/
def pyContains (sep : List Char) : List Char → Bool
  | [] => sep.isEmpty
  | c :: rest => sep.isPrefixOf (c :: rest) || pyContains sep rest

/-- Python `question_id.split("-")[0]`: characters before the first `'-'`. -/
def dialogueIdOf (question_id : String) : String :=
  ⟨question_id.data.takeWhile (fun c => c ≠ '-')⟩

/-- Python list slicing `l[-n:]` for `n : ℕ`: the whole list when `n = 0`
(since `-0 == 0` in Python), otherwise the last `n` elements. -/
def pyTail (n : ℕ) (l : List α) : List α :=
  if n = 0 then l else l.drop (l.length - n)

/-! ## Dialogue manager (`finglm_v1/utils/dialogue_manager.py`)

`DialogueTurn.timestamp`/`metadata` and `Dialogue.created_at`/`metadata` are
wall-clock / free-form fields never read by the code under verification and
are omitted.  The `dialogues` dict is modelled as an insertion-ordered
association list with first-match lookup, exactly Python `dict` semantics for
the operations used (`get`, `d[k] = v`). -/

structure DialogueTurn where
  question_id : String
  question : String
  answer : String
deriving DecidableEq

structure Dialogue where
  dialogue_id : String
  turns : List DialogueTurn
deriving DecidableEq

structure DialogueManager where
  max_history : ℕ
  context_window : ℕ
  dialogues : List (String × Dialogue)
deriving DecidableEq

/-- `DialogueManager()` defaults: `max_history=100`, `context_window=5`. -/
def DialogueManager.default : DialogueManager := ⟨100, 5, []⟩

/-- Python `dict.get(k)`. -/
def dictGet (l : List (String × α)) (k : String) : Option α :=
  match l with
  | [] => none
  | (k', v) :: rest => if k' = k then some v else dictGet rest k

/-- Python `d[k] = v`: replace the value at an existing key in place, else
append the new binding (insertion order preserved). -/
def dictSet (l : List (String × α)) (k : String) (v : α) : List (String × α) :=
  match l with
  | [] => [(k, v)]
  | (k', v') :: rest => if k' = k then (k, v) :: rest else (k', v') :: dictSet rest k v

/-- One `{"role": ..., "content": ...}` entry of `QuestionContext.history`. -/
structure HistMsg where
  role : String
  content : String
deriving DecidableEq

/-- The `metadata` dict that `get_context` attaches to a non-empty context. -/
structure ContextMeta where
  dialogue_id : String
  question_id : String
  turn_count : ℕ
deriving DecidableEq

/-- `finglm_v1/core/types.py` `QuestionContext` (the `timestamp` field is a
wall-clock default never read by the code under verification and is omitted;
the empty default `QuestionContext()` has empty history and `none` metadata). -/
structure QuestionContext where
  history : List HistMsg := []
  metadata : Option ContextMeta := none
deriving DecidableEq

/-- `DialogueManager.get_context`: derive the dialogue id, return the empty
context for an unknown dialogue, otherwise build one message per turn of the
last `context_window` turns — the turn at even window position contributes
`{"role": "human", "content": turn.question}`, at odd position
`{"role": "assistant", "content": turn.answer}` (this is exactly the
`i % 2` alternation in the source). -/
def getContext (m : DialogueManager) (question_id : String) : QuestionContext :=
  let dialogue_id := dialogueIdOf question_id
  match dictGet m.dialogues dialogue_id with
  | none => {}
  | some dialogue =>
    let recent := pyTail m.context_window dialogue.turns
    { history := recent.enum.map (fun p =>
        if p.1 % 2 = 0 then ⟨"human", p.2.question⟩ else ⟨"assistant", p.2.answer⟩),
      metadata := some ⟨dialogue_id, question_id, dialogue.turns.length⟩ }

/-- `DialogueManager.update_history`: derive the dialogue id, get or create the
dialogue, append the new turn, and when the turn count exceeds `max_history`
keep only `turns[-max_history:]`. -/
def updateHistory (m : DialogueManager) (question_id question answer : String) :
    DialogueManager :=
  let dialogue_id := dialogueIdOf question_id
  let dialogue := match dictGet m.dialogues dialogue_id with
    | some d => d
    | none => ⟨dialogue_id, []⟩
  let turns1 := dialogue.turns ++ [⟨question_id, question, answer⟩]
  let turns2 := if turns1.length > m.max_history then pyTail m.max_history turns1 else turns1
  { m with dialogues := dictSet m.dialogues dialogue_id ⟨dialogue_id, turns2⟩ }

/-- The turn list currently stored for a dialogue id (empty when absent). -/
def turnsOf (m : DialogueManager) (dialogue_id : String) : List DialogueTurn :=
  match dictGet m.dialogues dialogue_id with
  | some d => d.turns
  | none => []

/-! ## Vector store (`finglm_v1/utils/vector_store.py`)

`TableVectorStore` holds a FAISS `IndexFlatL2` over one embedding per catalog
entry.  The embedding model (`encode`) is an external collaborator, so the
store is modelled by its list of indexed vectors and `search` takes the
already-encoded query vector.  FAISS `IndexFlatL2` performs exact brute-force
nearest-neighbour search under squared Euclidean distance and returns the `k`
closest entries in ascending-distance order; when `k` exceeds the number of
indexed vectors it pads the missing slots with label `-1` at distance
`FLT_MAX`, and such padding slots score `1/(1+FLT_MAX) ≈ 2.9e-39`, so they
pass the `score >= threshold` filter exactly when the threshold is at most
that score (the default threshold is `0.6`).  Two views are given below:
`searchPadded` is the full model including the padding slots, and `search` is
the padding-free view over the real hits; `searchPadded_eq_map_search` proves
the two agree whenever the threshold exceeds the padding score, which covers
every threshold the repository uses.  Machine floats are modelled as
rationals. -/

/-- A `VectorSearchResult` from `finglm_v1/utils/vector_store.py` (the
free-form `metadata` dict, empty unless `add_texts` supplied one, is
omitted). -/
structure VectorSearchResult where
  index : ℕ
  score : ℚ
deriving DecidableEq

/-- Squared Euclidean distance, the metric of FAISS `IndexFlatL2`. -/
def sqDist (q v : List ℚ) : ℚ :=
  ((List.zipWith (fun a b => a - b) q v).map (fun x => x * x)).sum

/-- The ranking order of FAISS exact search: ascending distance, ties broken
by ascending position. -/
def rankLE (a b : ℕ × ℚ) : Prop :=
  a.2 < b.2 ∨ (a.2 = b.2 ∧ a.1 ≤ b.1)

instance : DecidableRel rankLE := fun a b => by
  unfold rankLE; infer_instance

instance : IsTotal (ℕ × ℚ) rankLE := by
  constructor
  intro a b
  rcases lt_trichotomy a.2 b.2 with h | h | h
  · exact Or.inl (Or.inl h)
  · rcases Nat.le_total a.1 b.1 with h' | h'
    · exact Or.inl (Or.inr ⟨h, h'⟩)
    · exact Or.inr (Or.inr ⟨h.symm, h'⟩)
  · exact Or.inr (Or.inl h)

instance : IsTrans (ℕ × ℚ) rankLE := by
  constructor
  intro a b c hab hbc
  rcases hab with h1 | ⟨h1, h1'⟩ <;> rcases hbc with h2 | ⟨h2, h2'⟩
  · exact Or.inl (lt_trans h1 h2)
  · exact Or.inl (h2 ▸ h1)
  · exact Or.inl (h1 ▸ h2)
  · exact Or.inr ⟨h1.trans h2, h1'.trans h2'⟩

/-- All indexed vectors paired with their positions and their distance to the
query, ranked by the FAISS exact-search order. -/
def rankedCandidates (vectors : List (List ℚ)) (query : List ℚ) : List (ℕ × ℚ) :=
  List.insertionSort rankLE (vectors.enum.map (fun p => (p.1, sqDist query p.2)))

/-- The raw FAISS `index.search(query, k)` output: the `k` nearest
`(position, distance)` pairs in ascending-distance order (padding slots
omitted, see the section comment). -/
def faissTopK (vectors : List (List ℚ)) (query : List ℚ) (k : ℕ) : List (ℕ × ℚ) :=
  (rankedCandidates vectors query).take k

/-- The score transform of `TableVectorStore.search`:
`scores = 1 / (1 + distances[0])`. -/
def score (d : ℚ) : ℚ := 1 / (1 + d)

/-- One ranked hit converted to a `VectorSearchResult`. -/
def toResult (p : ℕ × ℚ) : VectorSearchResult := ⟨p.1, score p.2⟩

/-- The unfiltered top-`k` ranking of `TableVectorStore.search`, scores
already applied, before the threshold filter. -/
def topKResults (vectors : List (List ℚ)) (query : List ℚ) (k : ℕ) :
    List VectorSearchResult :=
  (faissTopK vectors query k).map toResult

/-- `TableVectorStore.search(query, k, threshold)` restricted to the real
(non-padding) hits: rank all indexed vectors, take the `k` nearest, transform
distances to scores, then keep the hits with `score >= threshold`.  The
source wraps the body in `try/except` and returns `[]` on any internal
error, so the function is total and returns a plain list — there is no
failure path.  For the FAISS padding slots see `searchPadded` below;
`searchPadded_eq_map_search` shows this view loses nothing whenever the
threshold exceeds the padding score `1/(1+FLT_MAX)`. -/
def search (vectors : List (List ℚ)) (query : List ℚ) (k : ℕ) (threshold : ℚ) :
    List VectorSearchResult :=
  (topKResults vectors query k).filter (fun r => threshold ≤ r.score)

/-- `FLT_MAX = (2 - 2^-23) * 2^127 = 2^128 - 2^104`, the distance value FAISS
reports in padding slots when `k` exceeds the number of indexed vectors. -/
def fltMax : ℚ := 2 ^ 128 - 2 ^ 104

/-- The raw FAISS `index.search(query, k)` output including padding: the
`min k n` nearest `(position, distance)` pairs in ascending-distance order,
padded to exactly `k` slots with `(-1, FLT_MAX)` (positions as integers,
since the padding label is `-1`). -/
def faissTopKPadded (vectors : List (List ℚ)) (query : List ℚ) (k : ℕ) :
    List (ℤ × ℚ) :=
  (faissTopK vectors query k).map (fun p => ((p.1 : ℤ), p.2))
    ++ List.replicate (k - (faissTopK vectors query k).length) (-1, fltMax)

/-- `TableVectorStore.search(query, k, threshold)` over the full padded FAISS
output: each kept hit is the `(int(idx), score)` content of a
`VectorSearchResult` (rendered as a pair so the padding label `-1` is
representable); a hit survives the filter when `score >= threshold`, so
padding slots survive exactly when `threshold ≤ 1/(1+FLT_MAX)`. -/
def searchPadded (vectors : List (List ℚ)) (query : List ℚ) (k : ℕ)
    (threshold : ℚ) : List (ℤ × ℚ) :=
  ((faissTopKPadded vectors query k).map (fun p => (p.1, score p.2))).filter
    (fun r => threshold ≤ r.2)

/-! ## Relevant-table resolution (`finglm_v1/agents/nlu.py`)

The loop in `ParserAgent.parse` that turns retrieval hits into `TableInfo`
records: for each hit it reads row `idx` of the data dictionary with
`DataFrame.iloc[idx]` (raising the builtin `IndexError` when `idx` is out of
range — pandas positional lookup), lowercases the English table name, skips
the hit silently when that name has no entry in `self.table_schemas`, and
otherwise refreshes the schema record's Chinese name and description from the
dictionary row and appends it. -/

/-- One field record of a table schema (the keys `name`, `description`,
`example` of the source's field dict; `example` is a Lean keyword and is
rendered `exampleText`). -/
structure FieldInfo where
  name : String
  description : String
  exampleText : String
deriving DecidableEq

/-- `finglm_v1/core/types.py` `TableInfo`. -/
structure TableInfo where
  chinese_name : String
  english_name : String
  description : String
  fields : List FieldInfo
deriving DecidableEq

/-- One row of the data dictionary as read by the resolution loop
(columns `库表名英文`, `库表名中文`, `表描述`). -/
structure DictRow where
  name_en : String
  name_cn : String
  description : String
deriving DecidableEq

/-- The Python exceptions relevant to the resolution loop.  `indexError` is
the builtin `IndexError` raised by the out-of-range `DataFrame.iloc` lookup.
`dataConsistencyError` stands for the `DataConsistencyError` condition named
by the specification's error taxonomy; no such exception class exists
anywhere in the repository (`finglm_v1/core/types.py` defines only
`FinanceQAError`, `QuestionProcessingError`, `DatabaseError`, `LLMError`) and
no embedded definition below ever produces it. -/
inductive PyErr where
  | indexError
  | dataConsistencyError
deriving DecidableEq

instance {ε α : Type} [DecidableEq ε] [DecidableEq α] : DecidableEq (Except ε α)
  | .ok a, .ok b =>
    if h : a = b then isTrue (by rw [h]) else isFalse (fun he => by cases he; exact h rfl)
  | .ok _, .error _ => isFalse (fun he => by cases he)
  | .error _, .ok _ => isFalse (fun he => by cases he)
  | .error e, .error f =>
    if h : e = f then isTrue (by rw [h]) else isFalse (fun he => by cases he; exact h rfl)

/-- The relevant-table loop of `ParserAgent.parse` (lines 331–346): an
out-of-range hit position aborts the whole resolution with `IndexError`; a
position whose (lowercased) English table name is missing from the schema
dict is skipped silently; otherwise the schema record is refreshed from the
dictionary row and kept, in hit order. -/
def resolveTables (dict : List DictRow) (schemas : List (String × TableInfo))
    (hits : List VectorSearchResult) : Except PyErr (List TableInfo) :=
  match hits with
  | [] => .ok []
  | r :: rest =>
    match dict[r.index]? with
    | none => .error .indexError
    | some row =>
      match dictGet schemas row.name_en.toLower with
      | none => resolveTables dict schemas rest
      | some ti =>
        match resolveTables dict schemas rest with
        | .ok l => .ok ({ ti with chinese_name := row.name_cn,
                                  description := row.description } :: l)
        | .error e => .error e

/-! ## Refinement orchestrator (`finglm_v1/core/system.py`)

`FinanceQASystem.process_question`: fetch the context once (caller-supplied
context takes precedence), then run up to `max_iteration = 3` cycles of
understand → generate SQL → execute → generate answer.  The four collaborator
calls of one cycle depend only on the question, the (fixed) context and
collaborator nondeterminism, and are modelled as a single answer oracle
`gen : ℕ → QuestionContext → String` giving the answer text produced in cycle
`i` under a given context.  If the answer contains `"<|FINISH|>"` it is
truncated at the sentinel and returned; otherwise the unstripped answer is
appended to the dialogue history and the loop continues; after the last cycle
the most recent answer is returned. -/

/-- The reserved completion marker checked by `process_question`. -/
def sentinel : String := "<|FINISH|>"

/-- Python `"<|FINISH|>" in answer` (substring containment). -/
def hasSentinel (s : String) : Bool :=
  pyContains sentinel.data s.data

/-- Python `answer.split("<|FINISH|>")[0]`: the text before the first
occurrence of the sentinel (the whole text when the sentinel is absent). -/
def stripAtSentinel (s : String) : String :=
  ⟨pySplitHead sentinel.data s.data⟩

/-- `max_iteration = 3` in `process_question`. -/
def maxIteration : ℕ := 3

/-- The observable outcome of `process_question`: the returned answer, the
dialogue store after the call, and the number of full refinement cycles
performed. -/
structure ProcessResult where
  answer : String
  mgr : DialogueManager
  iters : ℕ
deriving DecidableEq

/-- The `for iter in range(max_iteration)` body of `process_question`:
`context` is the value computed before the loop and is never re-read from the
store. -/
def processLoop (gen : ℕ → QuestionContext → String) (context : QuestionContext)
    (question_id question : String) (i fuel : ℕ) (answer : String)
    (m : DialogueManager) : ProcessResult :=
  match fuel with
  | 0 => ⟨answer, m, i⟩
  | fuel + 1 =>
    let a := gen i context
    if hasSentinel a then ⟨stripAtSentinel a, m, i + 1⟩
    else processLoop gen context question_id question (i + 1) fuel a
      (updateHistory m question_id question a)

/-- The context used by `process_question`: the caller-supplied one when
present, otherwise `get_context` — computed once, before the loop. -/
def initialContext (ctx : Option QuestionContext) (m : DialogueManager)
    (question_id : String) : QuestionContext :=
  match ctx with
  | some c => c
  | none => getContext m question_id

/-- `FinanceQASystem.process_question(question_id, question, context=ctx)`
against the dialogue store `m`, with answer oracle `gen`. -/
def processQuestion (gen : ℕ → QuestionContext → String)
    (question_id question : String) (ctx : Option QuestionContext)
    (m : DialogueManager) : ProcessResult :=
  processLoop gen (initialContext ctx m question_id) question_id question 0
    maxIteration "" m

/-- Modelled from the spec (§4.4 `CHECK_COMPLETION` / `FETCH_CONTEXT`): the
loop variant in which, after appending a sentinel-free answer, control
"transitions back to `FETCH_CONTEXT`" and the next cycle's context is
"obtained anew from the store", reflecting the just-appended turn.  This is
the spec's description only — the source computes the context once before the
loop; this definition exists to be compared with `processQuestion`. -/
def processLoopRefetch (gen : ℕ → QuestionContext → String)
    (question_id question : String) (i fuel : ℕ) (answer : String)
    (m : DialogueManager) : ProcessResult :=
  match fuel with
  | 0 => ⟨answer, m, i⟩
  | fuel + 1 =>
    let context := getContext m question_id
    let a := gen i context
    if hasSentinel a then ⟨stripAtSentinel a, m, i + 1⟩
    else processLoopRefetch gen question_id question (i + 1) fuel a
      (updateHistory m question_id question a)

/-- Modelled from the spec: `process_question` as §4.4 describes it, with no
caller-supplied context, re-fetching the context from the store at the start
of every cycle. -/
def processQuestionRefetch (gen : ℕ → QuestionContext → String)
    (question_id question : String) (m : DialogueManager) : ProcessResult :=
  processLoopRefetch gen question_id question 0 maxIteration "" m

/-! ## Helper lemmas -/

lemma processLoop_zero (gen c qid q i ans m) :
    processLoop gen c qid q i 0 ans m = ⟨ans, m, i⟩ := rfl

lemma processLoop_succ (gen c qid q i fuel ans m) :
    processLoop gen c qid q i (fuel + 1) ans m =
      if hasSentinel (gen i c) then ⟨stripAtSentinel (gen i c), m, i + 1⟩
      else processLoop gen c qid q (i + 1) fuel (gen i c)
        (updateHistory m qid q (gen i c)) := rfl

lemma processLoop_iters_le (gen c qid q) :
    ∀ (fuel i : ℕ) (ans : String) (m : DialogueManager),
      (processLoop gen c qid q i fuel ans m).iters ≤ i + fuel := by
  intro fuel
  induction fuel with
  | zero => intro i ans m; exact Nat.le_of_eq rfl |>.trans (Nat.le_add_right i 0)
  | succ n ih =>
    intro i ans m
    rw [processLoop_succ]
    cases hb : hasSentinel (gen i c) with
    | true => simp [hb]
    | false =>
      simp only [hb, Bool.false_eq_true, if_false]
      have := ih (i + 1) (gen i c) (updateHistory m qid q (gen i c))
      omega

lemma processLoop_run3 (gen c qid q ans m)
    (h0 : hasSentinel (gen 0 c) = false) (h1 : hasSentinel (gen 1 c) = false)
    (h2 : hasSentinel (gen 2 c) = false) :
    processLoop gen c qid q 0 3 ans m =
      ⟨gen 2 c,
       updateHistory (updateHistory (updateHistory m qid q (gen 0 c)) qid q (gen 1 c))
         qid q (gen 2 c), 3⟩ := by
  show processLoop gen c qid q 0 (0+1+1+1) ans m = _
  simp [processLoop_succ, processLoop_zero, h0, h1, h2]

lemma processLoop_terminal3 (gen c qid q ans m) (i : ℕ) (hi : i < 3)
    (hprev : ∀ j, j < i → hasSentinel (gen j c) = false)
    (hsent : hasSentinel (gen i c) = true) :
    processLoop gen c qid q 0 3 ans m =
      ⟨stripAtSentinel (gen i c),
       (List.range i).foldl (fun acc j => updateHistory acc qid q (gen j c)) m,
       i + 1⟩ := by
  show processLoop gen c qid q 0 (0+1+1+1) ans m = _
  interval_cases i
  · simp [processLoop_succ, processLoop_zero, hsent]
  · have h0 := hprev 0 (by omega)
    simp [processLoop_succ, processLoop_zero, h0, hsent, List.range_succ]
  · have h0 := hprev 0 (by omega)
    have h1 := hprev 1 (by omega)
    simp [processLoop_succ, processLoop_zero, h0, h1, hsent, List.range_succ]

lemma pyContains_cons (sep : List Char) (c : Char) (rest : List Char) :
    pyContains sep (c :: rest) = (sep.isPrefixOf (c :: rest) || pyContains sep rest) := rfl

lemma pySplitHead_spec (sep : List Char) (hsep : sep ≠ []) :
    ∀ l : List Char, pyContains sep l = true →
      ∃ t, l = pySplitHead sep l ++ sep ++ t ∧ pyContains sep (pySplitHead sep l) = false := by
  intro l
  induction l with
  | nil =>
    intro h
    exact absurd (List.isEmpty_iff.mp h) hsep
  | cons c rest ih =>
    intro h
    by_cases hp : sep.isPrefixOf (c :: rest) = true
    · obtain ⟨t, ht⟩ := List.isPrefixOf_iff_prefix.mp hp
      have hsplit0 : pySplitHead sep (c :: rest) = [] := by
        simp [pySplitHead, hp]
      refine ⟨t, ?_, ?_⟩
      · rw [hsplit0]
        simpa using ht.symm
      · rw [hsplit0]
        have hz : pyContains sep [] = sep.isEmpty := rfl
        rw [hz]
        simpa [List.isEmpty_iff] using hsep
    · have h' : pyContains sep rest = true := by
        rw [pyContains_cons] at h
        rcases Bool.or_eq_true_iff.mp h with hl | hr
        · exact absurd hl hp
        · exact hr
      obtain ⟨t, ht, hfree⟩ := ih h'
      have hsplit : pySplitHead sep (c :: rest) = c :: pySplitHead sep rest := by
        simp [pySplitHead, hp]
      refine ⟨t, ?_, ?_⟩
      · rw [hsplit]
        simpa using congrArg (c :: ·) ht
      · rw [hsplit, pyContains_cons]
        have hnp : sep.isPrefixOf (c :: pySplitHead sep rest) = false := by
          cases hb : sep.isPrefixOf (c :: pySplitHead sep rest) with
          | false => rfl
          | true =>
            exfalso
            have hpre : sep <+: c :: pySplitHead sep rest := List.isPrefixOf_iff_prefix.mp hb
            have hmid : (c :: pySplitHead sep rest) <+: (c :: rest) := by
              refine ⟨sep ++ t, ?_⟩
              conv_rhs => rw [ht]
              simp [List.append_assoc]
            exact hp (List.isPrefixOf_iff_prefix.mpr (hpre.trans hmid))
        rw [hnp, hfree]
        rfl

lemma dictGet_dictSet_self (l : List (String × α)) (k : String) (v : α) :
    dictGet (dictSet l k v) k = some v := by
  induction l with
  | nil => simp [dictSet, dictGet]
  | cons p rest ih =>
    by_cases hk : p.1 = k
    · simp [dictSet, dictGet, hk]
    · simp [dictSet, dictGet, hk, ih]

lemma trim_eq (mh : ℕ) (hmh : mh ≠ 0) (l : List DialogueTurn) :
    (if l.length > mh then pyTail mh l else l) = l.drop (l.length - mh) := by
  by_cases h : l.length > mh
  · rw [if_pos h]
    unfold pyTail
    rw [if_neg hmh]
  · rw [if_neg h]
    have hz : l.length - mh = 0 := by omega
    rw [hz, List.drop_zero]

lemma sqDist_nonneg (q v : List ℚ) : 0 ≤ sqDist q v := by
  apply List.sum_nonneg
  intro x hx
  obtain ⟨y, hy, rfl⟩ := List.mem_map.mp hx
  exact mul_self_nonneg y

lemma score_pos {d : ℚ} (h : 0 ≤ d) : 0 < score d :=
  div_pos one_pos (by linarith)

lemma score_le_one {d : ℚ} (h : 0 ≤ d) : score d ≤ 1 := by
  rw [score, div_le_one (by linarith)]
  linarith

lemma score_zero : score 0 = 1 := by norm_num [score]

lemma score_strict_anti {d1 d2 : ℚ} (h1 : 0 ≤ d1) (h : d1 < d2) : score d2 < score d1 :=
  one_div_lt_one_div_of_lt (by linarith) (by linarith)

lemma score_anti {d1 d2 : ℚ} (h1 : 0 ≤ d1) (h : d1 ≤ d2) : score d2 ≤ score d1 := by
  rcases lt_or_eq_of_le h with hlt | heq
  · exact le_of_lt (score_strict_anti h1 hlt)
  · rw [heq]

lemma mem_rankedCandidates_dist_nonneg {vectors : List (List ℚ)} {query : List ℚ}
    {p : ℕ × ℚ} (hp : p ∈ rankedCandidates vectors query) : 0 ≤ p.2 := by
  have hperm := List.perm_insertionSort rankLE
    (vectors.enum.map (fun q => (q.1, sqDist query q.2)))
  have hp' : p ∈ vectors.enum.map (fun q => (q.1, sqDist query q.2)) :=
    hperm.mem_iff.mp hp
  obtain ⟨q', _, rfl⟩ := List.mem_map.mp hp'
  exact sqDist_nonneg ..

lemma mem_faissTopK_dist_nonneg {vectors : List (List ℚ)} {query : List ℚ} {k : ℕ}
    {p : ℕ × ℚ} (hp : p ∈ faissTopK vectors query k) : 0 ≤ p.2 :=
  mem_rankedCandidates_dist_nonneg (List.mem_of_mem_take hp)

lemma sorted_rankedCandidates (vectors : List (List ℚ)) (query : List ℚ) :
    List.Sorted rankLE (rankedCandidates vectors query) :=
  List.sorted_insertionSort rankLE _

lemma filter_replicate_eq (p : α → Bool) (a : α) (n : ℕ) :
    (List.replicate n a).filter p = if p a then List.replicate n a else [] := by
  induction n with
  | zero => simp
  | succ n ih =>
    by_cases hp : p a = true
    · simp [List.replicate_succ, List.filter_cons, hp, ih]
    · simp only [Bool.not_eq_true] at hp
      simp [List.replicate_succ, List.filter_cons, hp, ih]

lemma score_fltMax_pos : 0 < score fltMax :=
  score_pos (by norm_num [fltMax])

/-- The padding-free `search` view loses nothing when the threshold exceeds
the padding score: the full padded model returns exactly the `search` hits
(with their positions embedded into the integers). -/
lemma searchPadded_eq_map_search (vectors : List (List ℚ)) (query : List ℚ)
    (k : ℕ) (threshold : ℚ) (h : score fltMax < threshold) :
    searchPadded vectors query k threshold =
      (search vectors query k threshold).map (fun r => ((r.index : ℤ), r.score)) := by
  rw [searchPadded, faissTopKPadded, List.map_append, List.filter_append,
    List.map_replicate, filter_replicate_eq]
  rw [if_neg (by simp [not_le.mpr h])]
  simp [search, topKResults, List.filter_map, List.map_map, Function.comp, toResult]
  rfl

lemma pairwise_topKResults (vectors : List (List ℚ)) (query : List ℚ) (k : ℕ) :
    (topKResults vectors query k).Pairwise (fun a b => b.score ≤ a.score) := by
  apply (List.pairwise_map).mpr
  have hpw : (faissTopK vectors query k).Pairwise rankLE :=
    (sorted_rankedCandidates vectors query).sublist (List.take_sublist k _)
  apply hpw.imp_of_mem
  intro a b ha _ hab
  have hna : 0 ≤ a.2 := mem_faissTopK_dist_nonneg ha
  show score b.2 ≤ score a.2
  rcases hab with hlt | ⟨heq, _⟩
  · exact score_anti hna (le_of_lt hlt)
  · rw [heq]

/-! ## Claim theorems -/

/-- C1: for every answer oracle, `process_question` performs at most
`max_iteration = 3` full refinement cycles; and when no generated answer ever
contains the completion sentinel, the call returns the answer produced by the
3rd (last) cycle — as a value, not an error. -/
theorem C1_iteration_cap (gen : ℕ → QuestionContext → String)
    (question_id question : String) (ctx : Option QuestionContext)
    (m : DialogueManager) :
    (processQuestion gen question_id question ctx m).iters ≤ maxIteration ∧
    ((∀ i c, hasSentinel (gen i c) = false) →
      (processQuestion gen question_id question ctx m).answer =
        gen 2 (initialContext ctx m question_id)) := by
  constructor
  · have h := processLoop_iters_le gen (initialContext ctx m question_id)
      question_id question maxIteration 0 "" m
    simpa [processQuestion] using h
  · intro h
    have h3 := processLoop_run3 gen (initialContext ctx m question_id)
      question_id question "" m (h 0 _) (h 1 _) (h 2 _)
    rw [show processQuestion gen question_id question ctx m =
        processLoop gen (initialContext ctx m question_id) question_id question 0 3 "" m
      from rfl, h3]

/-- C1 witness: a collaborator stub that never emits the sentinel makes
`process_question` run all 3 cycles and return the 3rd answer. -/
theorem C1_iteration_cap_witness :
    (processQuestion (fun _ _ => "ans") "d-1" "q" none DialogueManager.default).iters
      ≤ maxIteration ∧
    (processQuestion (fun _ _ => "ans") "d-1" "q" none DialogueManager.default).answer
      = "ans" :=
  ⟨(C1_iteration_cap (fun _ _ => "ans") "d-1" "q" none DialogueManager.default).1,
   (C1_iteration_cap (fun _ _ => "ans") "d-1" "q" none DialogueManager.default).2
     (fun _ _ => by decide)⟩

/-- C2: when the cycle that terminates `process_question` produces an answer
containing the completion sentinel, the returned answer is that text truncated
at the first sentinel occurrence — the sentinel plus everything after it is
removed, and the returned text contains no sentinel. -/
theorem C2_sentinel_stripping (gen : ℕ → QuestionContext → String)
    (question_id question : String) (ctx : Option QuestionContext)
    (m : DialogueManager) (i : ℕ) (hi : i < maxIteration)
    (hprev : ∀ j, j < i → hasSentinel (gen j (initialContext ctx m question_id)) = false)
    (hsent : hasSentinel (gen i (initialContext ctx m question_id)) = true) :
    ∃ t : List Char,
      (gen i (initialContext ctx m question_id)).data =
        (processQuestion gen question_id question ctx m).answer.data
          ++ sentinel.data ++ t ∧
      pyContains sentinel.data
        (processQuestion gen question_id question ctx m).answer.data = false := by
  have hterm := processLoop_terminal3 gen (initialContext ctx m question_id)
    question_id question "" m i (by simpa [maxIteration] using hi) hprev hsent
  rw [show processQuestion gen question_id question ctx m =
      processLoop gen (initialContext ctx m question_id) question_id question 0 3 "" m
    from rfl, hterm]
  obtain ⟨t, h1, h2⟩ := pySplitHead_spec sentinel.data (by decide)
    (gen i (initialContext ctx m question_id)).data hsent
  exact ⟨t, h1, h2⟩

/-- C2 witness: the answer `"partial info<|FINISH|>trailing"` produced in the
first cycle yields exactly `"partial info"`. -/
theorem C2_sentinel_stripping_witness :
    (∃ t : List Char,
      ("partial info<|FINISH|>trailing" : String).data =
        (processQuestion (fun _ _ => "partial info<|FINISH|>trailing") "d-1" "q" none
          DialogueManager.default).answer.data ++ sentinel.data ++ t ∧
      pyContains sentinel.data
        (processQuestion (fun _ _ => "partial info<|FINISH|>trailing") "d-1" "q" none
          DialogueManager.default).answer.data = false) ∧
    (processQuestion (fun _ _ => "partial info<|FINISH|>trailing") "d-1" "q" none
      DialogueManager.default).answer = "partial info" :=
  ⟨C2_sentinel_stripping (fun _ _ => "partial info<|FINISH|>trailing") "d-1" "q" none
     DialogueManager.default 0 (by decide) (fun j hj => absurd hj (by omega)) (by decide),
   by decide⟩

/-- C3 counterexample: the context is fetched once, before the loop — it is
NOT obtained anew from the store after an intermediate answer is appended.
With an oracle that answers `"A"` under an empty-history context and `"B"`
otherwise, the source's loop returns `"A"` (all three cycles saw the initial
empty context), while the spec-modelled re-fetching loop returns `"B"`;
moreover re-reading the store after the first append really does yield a
different context. -/
theorem C3_context_not_refetched_counterexample :
    (processQuestion (fun _ c => if c.history.isEmpty then "A" else "B") "d-1" "q" none
        DialogueManager.default).answer = "A" ∧
    (processQuestionRefetch (fun _ c => if c.history.isEmpty then "A" else "B") "d-1" "q"
        DialogueManager.default).answer = "B" ∧
    getContext (updateHistory DialogueManager.default "d-1" "q" "A") "d-1" ≠
      getContext DialogueManager.default "d-1" := by
  refine ⟨by decide, by decide, by decide⟩

/-- C3 (amended): every cycle whose answer lacks the sentinel appends the
unstripped answer to the Dialogue Context Store, but the loop does not
re-fetch the context: all cycles are generated against the single context
obtained before the first cycle, so the next cycle's context does not reflect
the just-appended turn. -/
theorem C3_fixed_context (gen : ℕ → QuestionContext → String)
    (question_id question : String) (m : DialogueManager)
    (h : ∀ i, i < maxIteration →
      hasSentinel (gen i (getContext m question_id)) = false) :
    processQuestion gen question_id question none m =
      ⟨gen 2 (getContext m question_id),
       updateHistory (updateHistory (updateHistory m question_id question
           (gen 0 (getContext m question_id))) question_id question
           (gen 1 (getContext m question_id))) question_id question
           (gen 2 (getContext m question_id)),
       3⟩ := by
  have h3 := processLoop_run3 gen (getContext m question_id) question_id question "" m
    (h 0 (by decide)) (h 1 (by decide)) (h 2 (by decide))
  exact h3

/-- C3 witness: a concrete sentinel-free oracle appends its (unstripped)
answer three times against the fixed initial context. -/
theorem C3_fixed_context_witness :
    processQuestion (fun _ _ => "x") "d-1" "q" none DialogueManager.default =
      ⟨"x",
       updateHistory (updateHistory (updateHistory DialogueManager.default "d-1" "q" "x")
         "d-1" "q" "x") "d-1" "q" "x", 3⟩ :=
  C3_fixed_context (fun _ _ => "x") "d-1" "q" DialogueManager.default
    (fun _ _ => by show hasSentinel "x" = false; decide)

/-- C4 counterexample: at the default threshold `0.6`, `search` on an empty
index returns `[]` as an ordinary value — no `IndexNotReady` condition is
raised (the function is total) — and this is exactly the result of a
successful search on a non-empty index whose only hit (distance 100, score
1/101) falls below the threshold: the two outcomes are indistinguishable.
With threshold `0` the empty-index call still does not fail: it returns the
five FAISS padding hits (label `-1`, score `1/(1+FLT_MAX)`). -/
theorem C4_empty_index_counterexample :
    searchPadded [] [1] 5 (6/10) = [] ∧
    searchPadded [[0]] [10] 5 (6/10) = [] ∧
    searchPadded [] [1] 5 0 = List.replicate 5 (-1, score fltMax) := by
  refine ⟨?_, ?_, ?_⟩
  · norm_num [searchPadded, faissTopKPadded, faissTopK, rankedCandidates, sqDist,
      List.insertionSort, List.orderedInsert, score, fltMax, List.replicate]
  · norm_num [searchPadded, faissTopKPadded, faissTopK, rankedCandidates, sqDist,
      List.insertionSort, List.orderedInsert, score, fltMax, List.replicate]
  · norm_num [searchPadded, faissTopKPadded, faissTopK, rankedCandidates, sqDist,
      List.insertionSort, List.orderedInsert, score, fltMax, List.replicate]

/-- C4 (amended): `search` on an empty or unbuilt index never fails with an
`IndexNotReady` condition (no such condition exists; the source catches all
internal errors and returns `[]` as well): for every query and `k`, with any
threshold above the padding score `1/(1+FLT_MAX) ≈ 2.9e-39` — in particular
the default `0.6` — it silently returns the empty list, indistinguishable
from a successful search with no hits above the threshold, and with any
threshold at most the padding score it returns the `k` FAISS padding hits
(label `-1`) as an ordinary value. -/
theorem C4_empty_index_silent (query : List ℚ) (k : ℕ) (threshold : ℚ) :
    (score fltMax < threshold → searchPadded [] query k threshold = []) ∧
    (threshold ≤ score fltMax →
      searchPadded [] query k threshold = List.replicate k (-1, score fltMax)) := by
  have hbase : faissTopKPadded [] query k = List.replicate k (-1, fltMax) := by
    simp [faissTopKPadded, faissTopK, rankedCandidates, List.insertionSort]
  constructor
  · intro h
    rw [searchPadded, hbase, List.map_replicate, filter_replicate_eq,
      if_neg (by simp [not_le.mpr h])]
  · intro h
    rw [searchPadded, hbase, List.map_replicate, filter_replicate_eq,
      if_pos (by simpa using h)]

/-- C4 witness: the empty index with the default threshold `0.6` yields `[]`,
and with threshold `0` yields the five padding hits. -/
theorem C4_empty_index_silent_witness :
    searchPadded [] [1] 5 (6/10) = [] ∧
    searchPadded [] [1] 5 0 = List.replicate 5 (-1, score fltMax) :=
  ⟨(C4_empty_index_silent [1] 5 (6/10)).1 (by norm_num [score, fltMax]),
   (C4_empty_index_silent [1] 5 0).2 (by norm_num [score, fltMax])⟩

/-- C5: `search(query, k, threshold)` is the threshold filter applied after
ranking — its result is a positional subsequence of the unfiltered top-`k`,
both lists are in descending-score order, and `k` refers to the pre-filter
candidate pool (when `k` does not exceed the index size the unfiltered pool
has exactly `k` entries). -/
theorem C5_threshold_after_ranking (vectors : List (List ℚ)) (query : List ℚ)
    (k : ℕ) (threshold : ℚ) :
    List.Sublist (search vectors query k threshold) (topKResults vectors query k) ∧
    (topKResults vectors query k).Pairwise (fun a b => b.score ≤ a.score) ∧
    (search vectors query k threshold).Pairwise (fun a b => b.score ≤ a.score) ∧
    (k ≤ vectors.length → (topKResults vectors query k).length = k) := by
  refine ⟨List.filter_sublist _, pairwise_topKResults .., ?_, ?_⟩
  · exact (pairwise_topKResults vectors query k).sublist (List.filter_sublist _)
  · intro hk
    have hlen : (rankedCandidates vectors query).length = vectors.length := by
      have hperm := List.perm_insertionSort rankLE
        (vectors.enum.map (fun q => (q.1, sqDist query q.2)))
      simp [rankedCandidates, hperm.length_eq]
    simp [topKResults, faissTopK, hlen, hk]

/-- C5 witness: a two-vector index with `k = 2` and threshold `1/2`. -/
theorem C5_threshold_after_ranking_witness :
    List.Sublist (search [[0], [3]] [1] 2 (1/2)) (topKResults [[0], [3]] [1] 2) ∧
    (topKResults [[0], [3]] [1] 2).Pairwise (fun a b => b.score ≤ a.score) ∧
    (search [[0], [3]] [1] 2 (1/2)).Pairwise (fun a b => b.score ≤ a.score) ∧
    (topKResults [[0], [3]] [1] 2).length = 2 :=
  ⟨(C5_threshold_after_ranking [[0], [3]] [1] 2 (1/2)).1,
   (C5_threshold_after_ranking [[0], [3]] [1] 2 (1/2)).2.1,
   (C5_threshold_after_ranking [[0], [3]] [1] 2 (1/2)).2.2.1,
   (C5_threshold_after_ranking [[0], [3]] [1] 2 (1/2)).2.2.2 (by decide)⟩

/-- C6: the score transform `score d = 1 / (1 + d)` never divides by zero on
non-negative distances, maps distance 0 to exactly 1, lies in `(0, 1]`, is
strictly decreasing in the distance, and every score returned by `search`
lies in `(0, 1]`. -/
theorem C6_score_transform :
    (∀ d : ℚ, 0 ≤ d → ((1 : ℚ) + d ≠ 0 ∧ 0 < score d ∧ score d ≤ 1)) ∧
    score 0 = 1 ∧
    (∀ d1 d2 : ℚ, 0 ≤ d1 → d1 < d2 → score d2 < score d1) ∧
    (∀ (vectors : List (List ℚ)) (query : List ℚ) (k : ℕ) (threshold : ℚ)
        (r : VectorSearchResult), r ∈ search vectors query k threshold →
        0 < r.score ∧ r.score ≤ 1) := by
  refine ⟨fun d hd => ⟨by linarith, score_pos hd, score_le_one hd⟩, score_zero,
    fun d1 d2 h1 h => score_strict_anti h1 h, ?_⟩
  intro vectors query k threshold r hr
  have hr1 : r ∈ topKResults vectors query k := List.mem_of_mem_filter hr
  obtain ⟨p, hp, rfl⟩ := List.mem_map.mp hr1
  have hd : 0 ≤ p.2 := mem_faissTopK_dist_nonneg hp
  exact ⟨score_pos hd, score_le_one hd⟩

/-- C6 witness: concrete distances 0, 2, 3 and a concrete returned hit with
distance 0 scoring exactly 1. -/
theorem C6_score_transform_witness :
    ((1 : ℚ) + 2 ≠ 0 ∧ 0 < score 2 ∧ score 2 ≤ 1) ∧
    score 0 = 1 ∧
    score 3 < score 2 ∧
    (0 < (⟨0, 1⟩ : VectorSearchResult).score ∧
      (⟨0, 1⟩ : VectorSearchResult).score ≤ 1) :=
  ⟨C6_score_transform.1 2 (by norm_num),
   C6_score_transform.2.1,
   C6_score_transform.2.2.1 2 3 (by norm_num) (by norm_num),
   C6_score_transform.2.2.2 [[0]] [0] 5 1 ⟨0, 1⟩ (by
     norm_num [search, topKResults, faissTopK, rankedCandidates, sqDist,
       List.insertionSort, List.orderedInsert, toResult, score])⟩

/-- C7 counterexample: with a 9-entry catalog, resolving a hit at position 9
raises the builtin `IndexError` of the out-of-range `DataFrame.iloc` lookup —
an error is reported, but it is not a `DataConsistencyError`; no such
exception class exists anywhere in the repository. -/
theorem C7_data_consistency_counterexample :
    resolveTables (List.replicate 9 ⟨"t", "c", "d"⟩) [("t", ⟨"c", "t", "d", []⟩)]
        [⟨9, 1⟩] = .error .indexError ∧
    resolveTables (List.replicate 9 ⟨"t", "c", "d"⟩) [("t", ⟨"c", "t", "d", []⟩)]
        [⟨9, 1⟩] ≠ .error .dataConsistencyError := by
  refine ⟨by decide, by decide⟩

/-- C7 (amended): a retrieval hit whose position has no corresponding catalog
entry makes `ParserAgent.parse`'s resolution loop report an error — the
builtin `IndexError` from the out-of-range positional lookup — rather than
silently skipping the hit; the repository defines no `DataConsistencyError`
type. -/
theorem C7_missing_position_error (dict : List DictRow)
    (schemas : List (String × TableInfo)) (hits : List VectorSearchResult)
    (h : ∃ r ∈ hits, dict.length ≤ r.index) :
    resolveTables dict schemas hits = .error .indexError := by
  induction hits with
  | nil => simp at h
  | cons r rest ih =>
    obtain ⟨r', hr', hlen⟩ := h
    cases hd : dict[r.index]? with
    | none => simp [resolveTables, hd]
    | some row =>
      have hrest : ∃ x ∈ rest, dict.length ≤ x.index := by
        rcases List.mem_cons.mp hr' with he | hm
        · exfalso
          rw [he] at hlen
          rw [List.getElem?_eq_none_iff.mpr hlen] at hd
          exact Option.noConfusion hd
        · exact ⟨r', hm, hlen⟩
      have hih := ih hrest
      cases hsch : dictGet schemas row.name_en.toLower with
      | none => simp [resolveTables, hd, hsch, hih]
      | some ti => simp [resolveTables, hd, hsch, hih]

/-- C7 witness: a 2-entry catalog with a hit at position 5. -/
theorem C7_missing_position_error_witness :
    (∃ r ∈ [(⟨5, 1⟩ : VectorSearchResult)],
      ([⟨"t1", "c1", "d1"⟩, ⟨"t2", "c2", "d2"⟩] : List DictRow).length ≤ r.index) ∧
    resolveTables [⟨"t1", "c1", "d1"⟩, ⟨"t2", "c2", "d2"⟩] [] [⟨5, 1⟩] =
      .error .indexError :=
  ⟨by decide, C7_missing_position_error _ _ _ (by decide)⟩

/-- C8 counterexample: with 6 turns appended to one dialogue and
`context_window = 5`, `get_context` does return one entry per turn of the last
5 turns in order, but each turn contributes only one side: the window is
`[q2, a3, q4, a5, q6]`, so turn 2's answer `"a2"` (and turn 3's question)
appear nowhere — refuting the claim that each windowed turn appears with its
question and its answer. -/
theorem C8_window_counterexample :
    getContext ⟨100, 5, [("d", ⟨"d",
        [⟨"d-1", "q1", "a1"⟩, ⟨"d-2", "q2", "a2"⟩, ⟨"d-3", "q3", "a3"⟩,
         ⟨"d-4", "q4", "a4"⟩, ⟨"d-5", "q5", "a5"⟩, ⟨"d-6", "q6", "a6"⟩]⟩)]⟩ "d-7" =
      ⟨[⟨"human", "q2"⟩, ⟨"assistant", "a3"⟩, ⟨"human", "q4"⟩,
        ⟨"assistant", "a5"⟩, ⟨"human", "q6"⟩], some ⟨"d", "d-7", 6⟩⟩ ∧
    ∀ msg ∈ (getContext ⟨100, 5, [("d", ⟨"d",
        [⟨"d-1", "q1", "a1"⟩, ⟨"d-2", "q2", "a2"⟩, ⟨"d-3", "q3", "a3"⟩,
         ⟨"d-4", "q4", "a4"⟩, ⟨"d-5", "q5", "a5"⟩, ⟨"d-6", "q6", "a6"⟩]⟩)]⟩
        "d-7").history, msg.content ≠ "a2" := by
  refine ⟨by decide, by decide⟩

/-- C8 (amended): for `context_window ≥ 1`, `get_context` builds its history
from exactly the last `context_window` stored turns (all of them when fewer
exist), in original append order, with one message per turn: the turn at even
window position contributes its question under role `human`, the turn at odd
window position contributes its answer under role `assistant` — never both. -/
theorem C8_window_alternation (mh cw : ℕ) (hcw : 0 < cw)
    (dialogues : List (String × Dialogue)) (question_id did : String)
    (turns : List DialogueTurn)
    (hlook : dictGet dialogues (dialogueIdOf question_id) = some ⟨did, turns⟩) :
    (getContext ⟨mh, cw, dialogues⟩ question_id).history.length = min cw turns.length ∧
    ∀ i, i < (getContext ⟨mh, cw, dialogues⟩ question_id).history.length →
      (getContext ⟨mh, cw, dialogues⟩ question_id).history.getD i ⟨"", ""⟩ =
        (if i % 2 = 0
         then ⟨"human",
           (turns.getD (turns.length - min cw turns.length + i) ⟨"", "", ""⟩).question⟩
         else ⟨"assistant",
           (turns.getD (turns.length - min cw turns.length + i) ⟨"", "", ""⟩).answer⟩) := by
  have hcw' : cw ≠ 0 := by omega
  have hctx : getContext ⟨mh, cw, dialogues⟩ question_id =
      { history := (turns.drop (turns.length - cw)).enum.map (fun p =>
          if p.1 % 2 = 0 then ⟨"human", p.2.question⟩ else ⟨"assistant", p.2.answer⟩),
        metadata := some ⟨dialogueIdOf question_id, question_id, turns.length⟩ } := by
    simp only [getContext, hlook, pyTail, hcw', if_false, if_neg]
  rw [hctx]
  constructor
  · simp only [List.length_map, List.enum_length, List.length_drop]
    omega
  · intro i hi
    simp only [List.length_map, List.enum_length, List.length_drop] at hi
    have hidx : turns.length - min cw turns.length + i = turns.length - cw + i := by omega
    rw [hidx]
    have hb1 : i < ((turns.drop (turns.length - cw)).enum.map (fun p =>
        if p.1 % 2 = 0 then (⟨"human", p.2.question⟩ : HistMsg)
        else ⟨"assistant", p.2.answer⟩)).length := by
      simp only [List.length_map, List.enum_length, List.length_drop]
      omega
    have hb2 : turns.length - cw + i < turns.length := by omega
    rw [List.getD_eq_getElem _ _ hb1, List.getD_eq_getElem _ _ hb2,
      List.getElem_map, List.getElem_enum]
    simp only [List.getElem_drop]

/-- C8 witness: a 3-turn dialogue with `context_window = 2`. -/
theorem C8_window_alternation_witness :
    (getContext ⟨100, 2, [("d", ⟨"d",
        [⟨"d-1", "q1", "a1"⟩, ⟨"d-2", "q2", "a2"⟩, ⟨"d-3", "q3", "a3"⟩]⟩)]⟩
      "d-9").history.length =
        min 2 ([⟨"d-1", "q1", "a1"⟩, ⟨"d-2", "q2", "a2"⟩,
          ⟨"d-3", "q3", "a3"⟩] : List DialogueTurn).length ∧
    ∀ i, i < (getContext ⟨100, 2, [("d", ⟨"d",
        [⟨"d-1", "q1", "a1"⟩, ⟨"d-2", "q2", "a2"⟩, ⟨"d-3", "q3", "a3"⟩]⟩)]⟩
      "d-9").history.length →
      (getContext ⟨100, 2, [("d", ⟨"d",
          [⟨"d-1", "q1", "a1"⟩, ⟨"d-2", "q2", "a2"⟩, ⟨"d-3", "q3", "a3"⟩]⟩)]⟩
        "d-9").history.getD i ⟨"", ""⟩ =
        (if i % 2 = 0
         then ⟨"human", (([⟨"d-1", "q1", "a1"⟩, ⟨"d-2", "q2", "a2"⟩,
           ⟨"d-3", "q3", "a3"⟩] : List DialogueTurn).getD
             (3 - min 2 3 + i) ⟨"", "", ""⟩).question⟩
         else ⟨"assistant", (([⟨"d-1", "q1", "a1"⟩, ⟨"d-2", "q2", "a2"⟩,
           ⟨"d-3", "q3", "a3"⟩] : List DialogueTurn).getD
             (3 - min 2 3 + i) ⟨"", "", ""⟩).answer⟩) :=
  C8_window_alternation 100 2 (by decide) _ "d-9" "d" _ (by decide)

/-- C9 counterexample: with `max_history = 0` the Python trim
`turns[-max_history:]` is `turns[0:]`, a no-op, so after one `update_history`
call the dialogue holds 1 > `max_history` turns — the bound fails for this
configuration. -/
theorem C9_zero_max_history_counterexample :
    (updateHistory ⟨0, 5, []⟩ "d" "q" "a").dialogues =
      [("d", ⟨"d", [⟨"d", "q", "a"⟩]⟩)] ∧
    ¬ ∀ p ∈ (updateHistory ⟨0, 5, []⟩ "d" "q" "a").dialogues,
        p.2.turns.length ≤ (updateHistory ⟨0, 5, []⟩ "d" "q" "a").max_history := by
  refine ⟨by decide, by decide⟩

/-- C9 (amended): for `max_history ≥ 1`, after every `update_history` call the
dialogue identified by the derived dialogue id holds exactly the most recent
`min (previous + 1) max_history` turns: the new turn is appended at the end
and the oldest turns are dropped from the front, so the turn count never
exceeds `max_history`. -/
theorem C9_bounded_history (m : DialogueManager) (question_id question answer : String)
    (hmh : 0 < m.max_history) :
    turnsOf (updateHistory m question_id question answer) (dialogueIdOf question_id) =
      (turnsOf m (dialogueIdOf question_id)
          ++ [(⟨question_id, question, answer⟩ : DialogueTurn)]).drop
        ((turnsOf m (dialogueIdOf question_id)
          ++ [(⟨question_id, question, answer⟩ : DialogueTurn)]).length - m.max_history) ∧
    (turnsOf (updateHistory m question_id question answer) (dialogueIdOf question_id)).length
      = min ((turnsOf m (dialogueIdOf question_id)).length + 1) m.max_history ∧
    (turnsOf (updateHistory m question_id question answer) (dialogueIdOf question_id)).length
      ≤ m.max_history := by
  have hmone : m.max_history ≠ 0 := by omega
  cases hl : dictGet m.dialogues (dialogueIdOf question_id) with
  | none =>
    have hold : turnsOf m (dialogueIdOf question_id) = [] := by simp [turnsOf, hl]
    have hupd : turnsOf (updateHistory m question_id question answer)
        (dialogueIdOf question_id) =
        (if ([] ++ [(⟨question_id, question, answer⟩ : DialogueTurn)]).length > m.max_history
         then pyTail m.max_history ([] ++ [(⟨question_id, question, answer⟩ : DialogueTurn)])
         else [] ++ [(⟨question_id, question, answer⟩ : DialogueTurn)]) := by
      simp only [turnsOf, updateHistory, hl, dictGet_dictSet_self]
    rw [hupd, trim_eq _ hmone, hold]
    refine ⟨rfl, ?_, ?_⟩
    · simp only [List.length_drop, List.length_append, List.length_cons, List.length_nil,
        List.nil_append]
      omega
    · simp only [List.length_drop, List.length_append, List.length_cons, List.length_nil,
        List.nil_append]
      omega
  | some d =>
    have hold : turnsOf m (dialogueIdOf question_id) = d.turns := by simp [turnsOf, hl]
    have hupd : turnsOf (updateHistory m question_id question answer)
        (dialogueIdOf question_id) =
        (if (d.turns ++ [(⟨question_id, question, answer⟩ : DialogueTurn)]).length
            > m.max_history
         then pyTail m.max_history
           (d.turns ++ [(⟨question_id, question, answer⟩ : DialogueTurn)])
         else d.turns ++ [(⟨question_id, question, answer⟩ : DialogueTurn)]) := by
      simp only [turnsOf, updateHistory, hl, dictGet_dictSet_self]
    rw [hupd, trim_eq _ hmone, hold]
    refine ⟨rfl, ?_, ?_⟩
    · simp only [List.length_drop, List.length_append, List.length_cons, List.length_nil]
      omega
    · simp only [List.length_drop, List.length_append, List.length_cons, List.length_nil]
      omega

/-- C9 witness: a dialogue at capacity 2 drops its oldest turn on append. -/
theorem C9_bounded_history_witness :
    turnsOf (updateHistory ⟨2, 5, [("d", ⟨"d",
        [⟨"d-1", "q1", "a1"⟩, ⟨"d-2", "q2", "a2"⟩]⟩)]⟩ "d-3" "q3" "a3")
      (dialogueIdOf "d-3") =
      (turnsOf (⟨2, 5, [("d", ⟨"d", [⟨"d-1", "q1", "a1"⟩, ⟨"d-2", "q2", "a2"⟩]⟩)]⟩ :
          DialogueManager) (dialogueIdOf "d-3")
        ++ [(⟨"d-3", "q3", "a3"⟩ : DialogueTurn)]).drop
        ((turnsOf (⟨2, 5, [("d", ⟨"d", [⟨"d-1", "q1", "a1"⟩, ⟨"d-2", "q2", "a2"⟩]⟩)]⟩ :
            DialogueManager) (dialogueIdOf "d-3")
          ++ [(⟨"d-3", "q3", "a3"⟩ : DialogueTurn)]).length - 2) ∧
    (turnsOf (updateHistory ⟨2, 5, [("d", ⟨"d",
        [⟨"d-1", "q1", "a1"⟩, ⟨"d-2", "q2", "a2"⟩]⟩)]⟩ "d-3" "q3" "a3")
      (dialogueIdOf "d-3")).length =
      min ((turnsOf (⟨2, 5, [("d", ⟨"d", [⟨"d-1", "q1", "a1"⟩, ⟨"d-2", "q2", "a2"⟩]⟩)]⟩ :
          DialogueManager) (dialogueIdOf "d-3")).length + 1) 2 ∧
    (turnsOf (updateHistory ⟨2, 5, [("d", ⟨"d",
        [⟨"d-1", "q1", "a1"⟩, ⟨"d-2", "q2", "a2"⟩]⟩)]⟩ "d-3" "q3" "a3")
      (dialogueIdOf "d-3")).length ≤ 2 :=
  C9_bounded_history ⟨2, 5, [("d", ⟨"d", [⟨"d-1", "q1", "a1"⟩, ⟨"d-2", "q2", "a2"⟩]⟩)]⟩
    "d-3" "q3" "a3" (by decide)

/-- C10: when `process_question` terminates in cycle `i` because that cycle's
answer contains the completion sentinel, the dialogue store ends up exactly as
produced by appending the `i` earlier (sentinel-free) answers — the final,
sentinel-carrying answer is never appended; in particular a question answered
completely in the first cycle leaves the store unchanged. -/
theorem C10_final_answer_not_persisted (gen : ℕ → QuestionContext → String)
    (question_id question : String) (ctx : Option QuestionContext)
    (m : DialogueManager) (i : ℕ) (hi : i < maxIteration)
    (hprev : ∀ j, j < i → hasSentinel (gen j (initialContext ctx m question_id)) = false)
    (hsent : hasSentinel (gen i (initialContext ctx m question_id)) = true) :
    (processQuestion gen question_id question ctx m).mgr =
      (List.range i).foldl
        (fun acc j => updateHistory acc question_id question
          (gen j (initialContext ctx m question_id))) m ∧
    (i = 0 → (processQuestion gen question_id question ctx m).mgr = m) := by
  have hterm := processLoop_terminal3 gen (initialContext ctx m question_id)
    question_id question "" m i (by simpa [maxIteration] using hi) hprev hsent
  rw [show processQuestion gen question_id question ctx m =
      processLoop gen (initialContext ctx m question_id) question_id question 0 3 "" m
    from rfl, hterm]
  exact ⟨rfl, fun h0 => by subst h0; simp⟩

/-- C10 witness: an answer carrying the sentinel in the first cycle leaves the
dialogue store untouched. -/
theorem C10_final_answer_not_persisted_witness :
    (processQuestion (fun _ _ => "done<|FINISH|>") "d-1" "q" none
      DialogueManager.default).mgr = DialogueManager.default ∧
    ((0 : ℕ) = 0 → (processQuestion (fun _ _ => "done<|FINISH|>") "d-1" "q" none
      DialogueManager.default).mgr = DialogueManager.default) :=
  C10_final_answer_not_persisted (fun _ _ => "done<|FINISH|>") "d-1" "q" none
    DialogueManager.default 0 (by decide) (fun j hj => absurd hj (by omega)) (by decide)

end FinGLM
